import Mathlib

/-!
Verification of the dynamically sized file-information records of
`src/proto/media/file/info.rs` (type `NamedFileProtocolInfo<Header>` and its
instantiations `FileInfo`, `FileSystemInfo`, `FileSystemVolumeLabel`).

The storage buffer handed to the builder is modelled as a `Buffer`: a start
address, a byte length, and the byte contents as a function from offsets
(relative to the start address) to byte values.  Machine integers are
modelled as `Nat`; multi-byte fields are stored little-endian, reproducing
the flat `repr(C)` layout of the Rust structures.
-/

namespace UefiFileInfo

/-! ## Byte-level memory primitives -/

/-- Point update of a byte memory (one byte store). -/
def upd (f : Nat → Nat) (i v : Nat) : Nat → Nat :=
  fun j => if j = i then v else f j

/-- Store a list of bytes at consecutive offsets starting at `off`. -/
def writeBytes (f : Nat → Nat) (off : Nat) : List Nat → (Nat → Nat)
  | [] => f
  | v :: vs => writeBytes (upd f off v) (off + 1) vs

/-- Read `k` bytes at `off` as a little-endian natural number. -/
def readLE (f : Nat → Nat) (off : Nat) : Nat → Nat
  | 0 => 0
  | k + 1 => f off + 256 * readLE f (off + 1) k

/-- Little-endian byte serialization of `v` on `k` bytes. -/
def encLE : Nat → Nat → List Nat
  | _, 0 => []
  | v, k + 1 => v % 256 :: encLE (v / 256) k

/-- Read one 16-bit code unit (two little-endian bytes) at byte offset `pos`. -/
def readU16 (f : Nat → Nat) (pos : Nat) : Nat :=
  readLE f pos 2

/-- A raw byte buffer: start address, length, and contents (indexed by the
offset from the start address). -/
structure Buffer where
  addr : Nat
  len : Nat
  data : Nat → Nat

/-! ## The characters of the name

`Char16`, `NUL_16` and `CStr16` come from `crate::data_types::chars` and
`crate::data_types::strs`, which are part of this repository but not among
the given sources; they are modelled from the spec.  Unicode scalar values
and 16-bit code units are both modelled as `Nat`. -/

/-- The UCS-2 terminator code unit (`NUL_16`). -/
def NUL_16 : Nat := 0

/-- Modelled from the spec: conversion of one Unicode scalar value into a
single 16-bit code unit (`Char16::try_from::<char>`, not among the given
sources).  Per the spec, a scalar is accepted exactly when it is
representable in 16 bits ("scalars outside the 16-bit range are rejected");
the conversion is the identity on the code point. -/
def char16OfScalar (c : Nat) : Option Nat :=
  if c ≤ 65535 then some c else none

/-- Modelled from the spec: the scan performed by `CStr16::from_ptr` followed
by `to_u16_slice_with_nul().len()` (not among the given sources): starting at
byte offset `pos`, walk forward in 2-byte steps until the terminator code
unit, and return the number of code units found, terminator included.  The
real scan is unbounded; `fuel` bounds the recursion, and `none` models a
scan that has not found a terminator within `fuel` code units. -/
def scanLenWithNul (f : Nat → Nat) (pos : Nat) : Nat → Option Nat
  | 0 => none
  | fuel + 1 =>
    if readU16 f pos = NUL_16 then some 1
    else (scanLenWithNul f (pos + 2) fuel).map (· + 1)

/-- Modelled from the spec: the decoded content of the name, as read through
`CStr16` (not among the given sources): the code units found before the
terminator.  `fuel` bounds the otherwise unbounded scan. -/
def readCells (f : Nat → Nat) (pos : Nat) : Nat → List Nat
  | 0 => []
  | fuel + 1 =>
    if readU16 f pos = NUL_16 then []
    else readU16 f pos :: readCells f (pos + 2) fuel

/-! ## The generic record type

`NamedFileProtocolInfo<Header>` is generic in the header.  A header type is
described by its byte size, its alignment, and its `repr(C)` byte
serialization (what `header_ptr.write(header)` stores). -/

/-- Static description of one header type: `mem::size_of::<Header>()`,
`mem::align_of::<Header>()`, and the byte image of a header value. -/
structure HeaderType (α : Type) where
  size : Nat
  align : Nat
  enc : α → List Nat
  enc_size : ∀ h, (enc h).length = size

/-- `mem::size_of::<Char16>()`. -/
def char16Size : Nat := 2

/-- The alignment required for the full record:
`cmp::max(mem::align_of::<Header>(), mem::align_of::<Char16>())`
(`mem::align_of::<Char16>()` is 2). -/
def infoAlignment (hdrAlign : Nat) : Nat := max hdrAlign 2

/-- The realignment padding computed by `realign_storage`:
`info_alignment - storage_address % info_alignment`. -/
def realignPadding (align addr : Nat) : Nat := align - addr % align

/-- `NamedFileProtocolInfo::realign_storage`: discard the first
`realignPadding` bytes of the buffer, or return an empty buffer when the
storage is too small to be realigned.  (The empty slice returned by the
source has a dangling address; no code ever reads it, and the model keeps
the original address in that case.) -/
def realign_storage (align : Nat) (b : Buffer) : Buffer :=
  if b.len < realignPadding align b.addr then
    { addr := b.addr, len := 0, data := b.data }
  else
    { addr := b.addr + realignPadding align b.addr,
      len := b.len - realignPadding align b.addr,
      data := fun i => b.data (i + realignPadding align b.addr) }

/-- `enum FileInfoCreationError`. -/
inductive FileInfoCreationError where
  | InsufficientStorage (required : Nat)
  | InvalidChar (c : Nat)
deriving DecidableEq, Repr

/-- The `&mut NamedFileProtocolInfo<Header>` reference produced by the
builder: the absolute address of the record, its byte offset inside the
backing buffer, and the length of its `name` slice (the fat-pointer
metadata), in code units, terminator included. -/
structure InfoRef where
  addr : Nat
  off : Nat
  nameLen : Nat
deriving DecidableEq, Repr

/-- `name.chars().count() + 1`: the length of the name in code units,
terminator included. -/
def name_length_ucs2 (name : List Nat) : Nat := name.length + 1

/-- `mem::size_of::<Header>() + name_length_ucs2 * mem::size_of::<Char16>()`:
the byte size of the record to be built. -/
def info_size {α : Type} (H : HeaderType α) (name : List Nat) : Nat :=
  H.size + name_length_ucs2 name * char16Size

/-- The body of the name-writing loop of `new_impl`
(`for (target, ch) in info.name.iter_mut().zip(name.chars())`): encode each
scalar as one 16-bit code unit stored at consecutive 2-byte cells starting
at byte offset `pos`, aborting with the offending scalar (error payload of
`InvalidChar`) as soon as one scalar has no 16-bit representation; the cells
already written stay written. -/
def writeName (f : Nat → Nat) (pos : Nat) : List Nat → Option Nat × (Nat → Nat)
  | [] => (none, f)
  | c :: rest =>
    match char16OfScalar c with
    | some u => writeName (writeBytes f pos (encLE u 2)) (pos + 2) rest
    | none => (some c, f)

/-- `NamedFileProtocolInfo::new_impl`.  The realigned sub-slice starts at
byte offset `realignPadding` of the original buffer, so the writes performed
through it are modelled as writes into the original buffer at
`realignPadding`-shifted offsets; address and length of the returned buffer
are those of the original, only its contents change. -/
def new_impl {α : Type} (H : HeaderType α) (b : Buffer) (hdr : α)
    (name : List Nat) : Except FileInfoCreationError InfoRef × Buffer :=
  -- Try to realign the storage, then make sure it is large enough
  if (realign_storage (infoAlignment H.align) b).len < info_size H name then
    (.error (.InsufficientStorage (info_size H name)), b)
  else
    -- Write the header at the beginning of the (realigned) storage,
    -- then write down the UCS-2 name
    match writeName
        (writeBytes b.data (realignPadding (infoAlignment H.align) b.addr) (H.enc hdr))
        (realignPadding (infoAlignment H.align) b.addr + H.size) name with
    | (some c, d) => (.error (.InvalidChar c), { b with data := d })
    | (none, d) =>
        -- info.name[name_length_ucs2 - 1] = NUL_16
        (.ok { addr := b.addr + realignPadding (infoAlignment H.align) b.addr,
               off := realignPadding (infoAlignment H.align) b.addr,
               nameLen := name_length_ucs2 name },
         { b with data :=
            (writeBytes d
              (realignPadding (infoAlignment H.align) b.addr + H.size
                + char16Size * name.length)
              (encLE NUL_16 2)) })

/-- Round `n` up to the next multiple of `a`: for a power of two this is
the bit trick `(n + a - 1) & -a` used by the compiler when sizing
dynamically sized values. -/
def alignUp (n a : Nat) : Nat := (n + a - 1) / a * a

/-- `mem::size_of_val(&info)` for the built record: the size of the
dynamically sized `NamedFileProtocolInfo<Header>` whose `name` slice holds
`nameLen` code units.  Rust computes the size of a struct with a
dynamically sized tail as the sized prefix plus the tail size, rounded up
to the alignment of the whole value (the maximum of the header alignment
and the `Char16` alignment), adding trailing padding when the sum is not
already a multiple of that alignment. -/
def size_of_val_info {α : Type} (H : HeaderType α) (r : InfoRef) : Nat :=
  alignUp (H.size + char16Size * r.nameLen) (infoAlignment H.align)

/-- The first scalar of the name that has no 16-bit representation, if any. -/
def firstInvalidChar (name : List Nat) : Option Nat :=
  name.find? (fun c => decide (65535 < c))

/-- `<NamedFileProtocolInfo<Header> as FromUefi>::from_uefi`, applied at byte
offset `base` of a memory: scan for the terminator starting right after the
header and return the reconstructed fat-pointer metadata (the length of the
`name` slice in code units, terminator included).  `fuel` bounds the
otherwise unbounded scan. -/
def from_uefi {α : Type} (H : HeaderType α) (f : Nat → Nat) (base fuel : Nat) :
    Option Nat :=
  scanLenWithNul f (base + H.size) fuel

/-- The total byte extent of a record whose `name` fat-pointer metadata is
`nameLen`: header size plus code units times 2. -/
def recordExtent {α : Type} (H : HeaderType α) (nameLen : Nat) : Nat :=
  H.size + char16Size * nameLen

/-! ## The concrete record kinds -/

/-- Modelled from the spec: `crate::table::runtime::Time` (not among the
given sources) is a fixed-size plain-old-data value stored inside the
header; the spec fixes only that header fields are fixed-layout
C-compatible data.  Its 16 bytes of content are modelled as a single uninterpreted
128-bit value. -/
structure Time where
  val : Nat
deriving DecidableEq, Repr

/-- Byte size of `Time` (the EFI time structure occupies 16 bytes). -/
def timeSize : Nat := 16

/-- `struct FileInfoHeader` (`repr(C)`): `size: u64`, `file_size: u64`,
`physical_size: u64`, `create_time: Time`, `last_access_time: Time`,
`modification_time: Time`, `attribute: FileAttribute`.  `FileAttribute` is a
`u64` bit-flag value (modelled from the spec; its definition is not among
the given sources), stored here as a `Nat`.  The field `attribute` of the
source is renamed `attr` because `attribute` is a Lean keyword. -/
structure FileInfoHeader where
  size : Nat
  file_size : Nat
  physical_size : Nat
  create_time : Time
  last_access_time : Time
  modification_time : Time
  attr : Nat
deriving DecidableEq, Repr

/-- The `repr(C)` byte image of a `FileInfoHeader`: fields at offsets
0, 8, 16, 24, 40, 56 and 72, little-endian, 80 bytes in total. -/
def encFileInfoHeader (h : FileInfoHeader) : List Nat :=
  encLE h.size 8 ++ encLE h.file_size 8 ++ encLE h.physical_size 8 ++
    encLE h.create_time.val timeSize ++ encLE h.last_access_time.val timeSize ++
    encLE h.modification_time.val timeSize ++ encLE h.attr 8

/-- Length of `encLE` is its byte-count argument. -/
theorem encLE_length (v k : Nat) : (encLE v k).length = k := by
  induction k generalizing v with
  | zero => rfl
  | succ k ih => simp [encLE, ih]

/-- The header type of `FileInfo = NamedFileProtocolInfo<FileInfoHeader>`:
size 80, alignment 8. -/
def fileInfoHeaderType : HeaderType FileInfoHeader where
  size := 80
  align := 8
  enc := encFileInfoHeader
  enc_size := by
    intro h
    simp [encFileInfoHeader, encLE_length, timeSize]

/-- `struct FileSystemInfoHeader` (`repr(C)`): `size: u64`,
`read_only: bool`, `volume_size: u64`, `free_space: u64`,
`block_size: u32`. -/
structure FileSystemInfoHeader where
  size : Nat
  read_only : Bool
  volume_size : Nat
  free_space : Nat
  block_size : Nat
deriving DecidableEq, Repr

/-- The `repr(C)` byte image of a `FileSystemInfoHeader`: fields at offsets
0, 8, 16, 24 and 32, little-endian, with 7 padding bytes after the `bool`
and 4 trailing padding bytes, 40 bytes in total.  The content of padding
bytes is unspecified in Rust and unobservable through the accessors; the
model stores zeros there. -/
def encFileSystemInfoHeader (h : FileSystemInfoHeader) : List Nat :=
  encLE h.size 8 ++ ((if h.read_only then 1 else 0) :: List.replicate 7 0) ++
    encLE h.volume_size 8 ++ encLE h.free_space 8 ++
    encLE h.block_size 4 ++ List.replicate 4 0

/-- The header type of
`FileSystemInfo = NamedFileProtocolInfo<FileSystemInfoHeader>`:
size 40, alignment 8. -/
def fileSystemInfoHeaderType : HeaderType FileSystemInfoHeader where
  size := 40
  align := 8
  enc := encFileSystemInfoHeader
  enc_size := by
    intro h
    simp [encFileSystemInfoHeader, encLE_length]

/-- `struct FileSystemVolumeLabelHeader {}`: the empty header. -/
structure FileSystemVolumeLabelHeader where
deriving DecidableEq, Repr

/-- The header type of
`FileSystemVolumeLabel = NamedFileProtocolInfo<FileSystemVolumeLabelHeader>`:
size 0, alignment 1. -/
def fileSystemVolumeLabelHeaderType : HeaderType FileSystemVolumeLabelHeader where
  size := 0
  align := 1
  enc := fun _ => []
  enc_size := by intro h; rfl

namespace FileInfo

/-- `FileInfo::new`: build the header with `size: 0`, run `new_impl`, then
set `info.header.size = mem::size_of_val(&info) as u64` (a `u64` store at
offset 0 of the record). -/
def new (b : Buffer) (file_size physical_size : Nat)
    (create_time last_access_time modification_time : Time) (attr : Nat)
    (file_name : List Nat) : Except FileInfoCreationError InfoRef × Buffer :=
  match new_impl fileInfoHeaderType b
      { size := 0, file_size := file_size, physical_size := physical_size,
        create_time := create_time, last_access_time := last_access_time,
        modification_time := modification_time, attr := attr } file_name with
  | (.error e, b1) => (.error e, b1)
  | (.ok info, b1) =>
      (.ok info,
       { b1 with data :=
          (writeBytes b1.data info.off
            (encLE (size_of_val_info fileInfoHeaderType info) 8)) })

/-- The `size` field of the header of the record at byte offset `base`. -/
def size_field (f : Nat → Nat) (base : Nat) : Nat := readLE f base 8

/-- `FileInfo::file_size`. -/
def file_size (f : Nat → Nat) (base : Nat) : Nat := readLE f (base + 8) 8

/-- `FileInfo::physical_size`. -/
def physical_size (f : Nat → Nat) (base : Nat) : Nat := readLE f (base + 16) 8

/-- `FileInfo::create_time`. -/
def create_time (f : Nat → Nat) (base : Nat) : Time := ⟨readLE f (base + 24) timeSize⟩

/-- `FileInfo::last_access_time`. -/
def last_access_time (f : Nat → Nat) (base : Nat) : Time := ⟨readLE f (base + 40) timeSize⟩

/-- `FileInfo::modification_time`. -/
def modification_time (f : Nat → Nat) (base : Nat) : Time := ⟨readLE f (base + 56) timeSize⟩

/-- `FileInfo::attribute` (renamed: `attribute` is a Lean keyword). -/
def attr (f : Nat → Nat) (base : Nat) : Nat := readLE f (base + 72) 8

/-- `FileInfo::file_name`: the name decoded through `CStr16::from_ptr`
starting at `&self.name[0]` (byte offset 80 of the record); `fuel` bounds
the otherwise unbounded terminator scan. -/
def file_name (f : Nat → Nat) (base fuel : Nat) : List Nat :=
  readCells f (base + 80) fuel

end FileInfo

namespace FileSystemInfo

/-- `FileSystemInfo::new`: build the header with `size: 0`, run `new_impl`,
then set `info.header.size = mem::size_of_val(&info) as u64`. -/
def new (b : Buffer) (read_only : Bool) (volume_size free_space block_size : Nat)
    (volume_label : List Nat) : Except FileInfoCreationError InfoRef × Buffer :=
  match new_impl fileSystemInfoHeaderType b
      { size := 0, read_only := read_only, volume_size := volume_size,
        free_space := free_space, block_size := block_size } volume_label with
  | (.error e, b1) => (.error e, b1)
  | (.ok info, b1) =>
      (.ok info,
       { b1 with data :=
          (writeBytes b1.data info.off
            (encLE (size_of_val_info fileSystemInfoHeaderType info) 8)) })

/-- The `size` field of the header of the record at byte offset `base`. -/
def size_field (f : Nat → Nat) (base : Nat) : Nat := readLE f base 8

end FileSystemInfo

/-! ## Lemmas about the memory primitives -/

/-- A batch store, read back pointwise: inside the written range the byte
comes from the list, outside it the memory is untouched. -/
theorem writeBytes_apply (bs : List Nat) (f : Nat → Nat) (off j : Nat) :
    writeBytes f off bs j =
      if off ≤ j ∧ j < off + bs.length then bs.getD (j - off) 0 else f j := by
  induction bs generalizing f off with
  | nil =>
    rw [writeBytes, if_neg (by simp)]
  | cons v vs ih =>
    rw [writeBytes, ih]
    rcases Nat.lt_trichotomy j off with hlt | heq | hgt
    · have h1 : ¬ (off + 1 ≤ j ∧ j < off + 1 + vs.length) := by omega
      have h2 : ¬ (off ≤ j ∧ j < off + (v :: vs).length) := by
        simp only [List.length_cons]; omega
      rw [if_neg h1, if_neg h2, upd, if_neg (by omega : ¬ j = off)]
    · subst heq
      have h1 : ¬ (j + 1 ≤ j ∧ j < j + 1 + vs.length) := by omega
      have h2 : j ≤ j ∧ j < j + (v :: vs).length := by
        simp only [List.length_cons]; omega
      rw [if_neg h1, if_pos h2, upd, if_pos rfl, Nat.sub_self, List.getD_cons_zero]
    · by_cases hin : j < off + 1 + vs.length
      · have h1 : off + 1 ≤ j ∧ j < off + 1 + vs.length := by omega
        have h2 : off ≤ j ∧ j < off + (v :: vs).length := by
          simp only [List.length_cons]; omega
        have hj : j - off = (j - (off + 1)) + 1 := by omega
        rw [if_pos h1, if_pos h2, hj, List.getD_cons_succ]
      · have h1 : ¬ (off + 1 ≤ j ∧ j < off + 1 + vs.length) := by omega
        have h2 : ¬ (off ≤ j ∧ j < off + (v :: vs).length) := by
          simp only [List.length_cons]; omega
        rw [if_neg h1, if_neg h2, upd, if_neg (by omega : ¬ j = off)]

/-- Reading depends only on the bytes of the read range. -/
theorem readLE_congr (k : Nat) (f g : Nat → Nat) (off : Nat)
    (h : ∀ j < k, f (off + j) = g (off + j)) :
    readLE f off k = readLE g off k := by
  induction k generalizing off with
  | zero => rfl
  | succ k ih =>
    rw [readLE, readLE]
    have h0 : f off = g off := by
      have hh := h 0 (by omega)
      simpa using hh
    have hrest : readLE f (off + 1) k = readLE g (off + 1) k := by
      apply ih
      intro j hj
      have hh := h (j + 1) (by omega)
      have e : off + 1 + j = off + (j + 1) := by omega
      rw [e]
      exact hh
    rw [h0, hrest]

/-- The bytes of the little-endian serialization. -/
theorem encLE_getD (v k j : Nat) (hj : j < k) :
    (encLE v k).getD j 0 = v / 256 ^ j % 256 := by
  induction k generalizing v j with
  | zero => omega
  | succ k ih =>
    cases j with
    | zero => simp [encLE]
    | succ j =>
      rw [encLE, List.getD_cons_succ, ih (v / 256) j (by omega),
        Nat.div_div_eq_div_mul]
      congr 2
      rw [Nat.pow_succ, Nat.mul_comm]

/-- A memory whose bytes agree with the serialization of `v` reads back as
`v`, reduced modulo the range of the read. -/
theorem readLE_of_bytes (k : Nat) (f : Nat → Nat) (off v : Nat)
    (h : ∀ j < k, f (off + j) = (encLE v k).getD j 0) :
    readLE f off k = v % 256 ^ k := by
  induction k generalizing f off v with
  | zero => simp [readLE, Nat.mod_one]
  | succ k ih =>
    rw [readLE]
    have h0 : f off = v % 256 := by
      have hh := h 0 (by omega)
      simpa [encLE] using hh
    have hrest : readLE f (off + 1) k = (v / 256) % 256 ^ k := by
      apply ih
      intro j hj
      have hh := h (j + 1) (by omega)
      rw [encLE, List.getD_cons_succ] at hh
      have e : off + 1 + j = off + (j + 1) := by omega
      rw [e]
      exact hh
    rw [h0, hrest, Nat.pow_succ, Nat.mul_comm (256 ^ k) 256, Nat.mod_mul]

/-- Read-back of a just-written little-endian value. -/
theorem readLE_writeBytes_encLE (f : Nat → Nat) (off v k : Nat) :
    readLE (writeBytes f off (encLE v k)) off k = v % 256 ^ k := by
  apply readLE_of_bytes
  intro j hj
  rw [writeBytes_apply]
  have hin : off ≤ off + j ∧ off + j < off + (encLE v k).length := by
    rw [encLE_length]; omega
  rw [if_pos hin]
  congr 1
  omega

/-- A read from a range disjoint from a batch store is unchanged. -/
theorem readLE_writeBytes_frame (f : Nat → Nat) (off : Nat) (bs : List Nat)
    (off2 k : Nat) (hdisj : off2 + k ≤ off ∨ off + bs.length ≤ off2) :
    readLE (writeBytes f off bs) off2 k = readLE f off2 k := by
  apply readLE_congr
  intro j hj
  rw [writeBytes_apply]
  rw [if_neg (by omega)]

/-! ## Lemmas about the name-writing loop -/

/-- When every scalar of the name has a 16-bit representation, the loop
succeeds; the written cells read back as the scalars, and every byte outside
the written range is untouched. -/
theorem writeName_ok (name : List Nat) (f : Nat → Nat) (pos : Nat)
    (hchars : ∀ c ∈ name, c ≤ 65535) :
    ∃ g, writeName f pos name = (none, g) ∧
      (∀ j, (j < pos ∨ pos + 2 * name.length ≤ j) → g j = f j) ∧
      (∀ i < name.length, readU16 g (pos + 2 * i) = name.getD i 0) := by
  induction name generalizing f pos with
  | nil =>
    refine ⟨f, rfl, fun j _ => rfl, fun i hi => by simp at hi⟩
  | cons c rest ih =>
    have hc : c ≤ 65535 := hchars c (by simp)
    have hsome : char16OfScalar c = some c := by
      rw [char16OfScalar, if_pos hc]
    obtain ⟨g, hg, hgframe, hgcells⟩ :=
      ih (writeBytes f pos (encLE c 2)) (pos + 2)
        (fun x hx => hchars x (by simp [hx]))
    refine ⟨g, ?_, ?_, ?_⟩
    · simp only [writeName, hsome]
      exact hg
    · intro j hj
      simp only [List.length_cons] at hj
      have hj2 : j < pos + 2 ∨ pos + 2 + 2 * rest.length ≤ j := by omega
      rw [hgframe j hj2, writeBytes_apply,
        if_neg (by rw [encLE_length]; omega)]
    · intro i hi
      cases i with
      | zero =>
        have hcell : readU16 g pos = readU16 (writeBytes f pos (encLE c 2)) pos := by
          apply readLE_congr
          intro j hj
          exact hgframe (pos + j) (by omega)
        rw [Nat.mul_zero, Nat.add_zero, hcell, readU16, readLE_writeBytes_encLE]
        have : c % 256 ^ 2 = c := Nat.mod_eq_of_lt (by norm_num; omega)
        rw [this, List.getD_cons_zero]
      | succ i =>
        have he : pos + 2 * (i + 1) = pos + 2 + 2 * i := by omega
        rw [he, hgcells i (by simp only [List.length_cons] at hi; omega),
          List.getD_cons_succ]

/-- When some scalar of the name has no 16-bit representation, the loop
aborts carrying the first such scalar. -/
theorem writeName_first_invalid (name : List Nat) (f : Nat → Nat) (pos c : Nat)
    (h : firstInvalidChar name = some c) :
    (writeName f pos name).1 = some c := by
  induction name generalizing f pos with
  | nil => simp [firstInvalidChar] at h
  | cons a rest ih =>
    by_cases ha : 65535 < a
    · have : firstInvalidChar (a :: rest) = some a := by
        rw [firstInvalidChar, List.find?_cons_of_pos rest (by simpa using ha)]
      rw [this] at h
      have hnone : char16OfScalar a = none := by
        rw [char16OfScalar, if_neg (by omega)]
      simp only [writeName, hnone]
      simpa using h
    · have hrest : firstInvalidChar rest = some c := by
        rw [firstInvalidChar] at h ⊢
        rwa [List.find?_cons_of_neg rest (by simpa using ha)] at h
      have hsome : char16OfScalar a = some a := by
        rw [char16OfScalar, if_pos (by omega)]
      simp only [writeName, hsome]
      exact ih (writeBytes f pos (encLE a 2)) (pos + 2) hrest

/-! ## The success path of the builder -/

/-- Successful build: when every scalar is representable and the realigned
storage is large enough, `new_impl` returns the reference to the record at
the realigned offset, the header bytes are the serialization of the header
value, the name cells read back as the scalars of the name, and the
terminator cell reads back as zero. -/
theorem new_impl_ok_mem {α : Type} (H : HeaderType α) (b : Buffer) (hdr : α)
    (name : List Nat) (hchars : ∀ c ∈ name, c ≤ 65535)
    (hlen : info_size H name ≤ (realign_storage (infoAlignment H.align) b).len) :
    ∃ d : Nat → Nat,
      new_impl H b hdr name =
        (.ok { addr := b.addr + realignPadding (infoAlignment H.align) b.addr,
               off := realignPadding (infoAlignment H.align) b.addr,
               nameLen := name_length_ucs2 name },
         { b with data := d }) ∧
      (∀ j < H.size,
        d (realignPadding (infoAlignment H.align) b.addr + j) = (H.enc hdr).getD j 0) ∧
      (∀ i < name.length,
        readU16 d (realignPadding (infoAlignment H.align) b.addr + H.size + 2 * i)
          = name.getD i 0) ∧
      readU16 d (realignPadding (infoAlignment H.align) b.addr + H.size
          + 2 * name.length) = 0 := by
  have hnotlt :
      ¬ ((realign_storage (infoAlignment H.align) b).len < info_size H name) := by
    omega
  obtain ⟨g, hg, hgframe, hgcells⟩ :=
    writeName_ok name
      (writeBytes b.data (realignPadding (infoAlignment H.align) b.addr) (H.enc hdr))
      (realignPadding (infoAlignment H.align) b.addr + H.size) hchars
  refine ⟨writeBytes g
      (realignPadding (infoAlignment H.align) b.addr + H.size
        + char16Size * name.length) (encLE NUL_16 2), ?_, ?_, ?_, ?_⟩
  · simp only [new_impl, if_neg hnotlt, hg]
  · intro j hj
    rw [writeBytes_apply, if_neg (by rw [encLE_length]; simp only [char16Size]; omega)]
    rw [hgframe _ (by omega)]
    rw [writeBytes_apply, if_pos (by rw [H.enc_size]; omega)]
    congr 1
    omega
  · intro i hi
    have hframe :
        readU16 (writeBytes g
          (realignPadding (infoAlignment H.align) b.addr + H.size
            + char16Size * name.length) (encLE NUL_16 2))
          (realignPadding (infoAlignment H.align) b.addr + H.size + 2 * i)
        = readU16 g (realignPadding (infoAlignment H.align) b.addr + H.size + 2 * i) := by
      apply readLE_writeBytes_frame
      rw [encLE_length]
      simp only [char16Size]
      omega
    rw [hframe, hgcells i hi]
  · rw [show char16Size * name.length = 2 * name.length from by
      simp only [char16Size]]
    rw [readU16, readLE_writeBytes_encLE]
    simp [NUL_16]

/-! ## Lemmas about the terminator scan -/

/-- The scan of `from_uefi` over a memory whose first `n` code units are
non-zero and whose unit `n` is the terminator finds `n + 1` units, provided
the fuel allows reaching the terminator. -/
theorem scanLenWithNul_spec (n : Nat) (f : Nat → Nat) (pos : Nat)
    (hnz : ∀ i < n, readU16 f (pos + 2 * i) ≠ 0)
    (hz : readU16 f (pos + 2 * n) = 0) (fuel : Nat) (hfuel : n < fuel) :
    scanLenWithNul f pos fuel = some (n + 1) := by
  induction n generalizing pos fuel with
  | zero =>
    cases fuel with
    | zero => omega
    | succ m =>
      rw [scanLenWithNul, if_pos (by simpa [NUL_16] using hz)]
  | succ n ih =>
    cases fuel with
    | zero => omega
    | succ m =>
      have h0 : readU16 f pos ≠ 0 := by
        have hh := hnz 0 (by omega)
        simpa using hh
      rw [scanLenWithNul, if_neg (by simpa [NUL_16] using h0)]
      have hrec : scanLenWithNul f (pos + 2) m = some (n + 1) := by
        apply ih
        · intro i hi
          have hh := hnz (i + 1) (by omega)
          have e : pos + 2 + 2 * i = pos + 2 * (i + 1) := by omega
          rw [e]
          exact hh
        · have e : pos + 2 + 2 * n = pos + 2 * (n + 1) := by omega
          rw [e]
          exact hz
        · omega
      rw [hrec]
      rfl

/-- The decode of the name over a memory whose cells hold the non-zero
scalars `cs` followed by a terminator returns exactly `cs`, provided the
fuel allows reaching the terminator. -/
theorem readCells_spec (cs : List Nat) (f : Nat → Nat) (pos : Nat)
    (hcell : ∀ i < cs.length, readU16 f (pos + 2 * i) = cs.getD i 0)
    (hnz : ∀ c ∈ cs, c ≠ 0)
    (hz : readU16 f (pos + 2 * cs.length) = 0)
    (fuel : Nat) (hfuel : cs.length < fuel) :
    readCells f pos fuel = cs := by
  induction cs generalizing pos fuel with
  | nil =>
    cases fuel with
    | zero => omega
    | succ m =>
      rw [readCells, if_pos (by simpa [NUL_16] using hz)]
  | cons c rest ih =>
    cases fuel with
    | zero => omega
    | succ m =>
      have h0 : readU16 f pos = c := by
        have hh := hcell 0 (by simp)
        simpa using hh
      have hc0 : c ≠ 0 := hnz c (by simp)
      rw [readCells, if_neg (by rw [NUL_16, h0]; exact hc0), h0]
      congr 1
      apply ih
      · intro i hi
        have hh := hcell (i + 1) (by simp only [List.length_cons]; omega)
        have e : pos + 2 + 2 * i = pos + 2 * (i + 1) := by omega
        rw [e, hh, List.getD_cons_succ]
      · intro x hx
        exact hnz x (by simp [hx])
      · have e : pos + 2 + 2 * rest.length = pos + 2 * (rest.length + 1) := by omega
        rw [e]
        simpa using hz
      · simp only [List.length_cons] at hfuel
        omega

/-! ## Arithmetic of the realignment -/

/-- Adding the realignment padding lands on an aligned address. -/
theorem add_realignPadding_mod (align addr : Nat) (h : 0 < align) :
    (addr + realignPadding align addr) % align = 0 := by
  have hdvd : align ∣ addr - addr % align := Nat.dvd_sub_mod addr
  have hle : addr % align ≤ addr := Nat.mod_le addr align
  have hlt : addr % align < align := Nat.mod_lt addr h
  have e : addr + realignPadding align addr = (addr - addr % align) + align := by
    rw [realignPadding]
    omega
  rw [e, Nat.add_mod_right]
  obtain ⟨c, hc⟩ := hdvd
  rw [hc, Nat.mul_mod_right]

/-- The realignment padding is at least 1 and at most the alignment. -/
theorem realignPadding_bounds (align addr : Nat) (h : 0 < align) :
    1 ≤ realignPadding align addr ∧ realignPadding align addr ≤ align := by
  have hlt : addr % align < align := Nat.mod_lt addr h
  rw [realignPadding]
  omega

/-- The required alignment is always positive (it is at least 2). -/
theorem infoAlignment_pos (hdrAlign : Nat) : 0 < infoAlignment hdrAlign := by
  rw [infoAlignment]
  omega

/-- `info_size`, written out. -/
theorem info_size_eq {α : Type} (H : HeaderType α) (name : List Nat) :
    info_size H name = H.size + (name.length + 1) * 2 := by
  rw [info_size, name_length_ucs2, char16Size]

/-! ## The claims -/

/-- C1, as stated, is false: on a buffer whose start address is already a
multiple of the required alignment A, `realign_storage` returns a non-empty
sub-buffer whose length decreased by exactly A bytes, not strictly less.
Concretely, with a header of alignment 1 (so A = 2) and a buffer at address
0 of length 4, the result is non-empty, aligned, and 2 = A bytes shorter. -/
theorem realign_aligned_loses_full_alignment_cex :
    ¬ ((realign_storage (infoAlignment 1) ⟨0, 4, fun _ => 0⟩).len = 0 ∨
       ((realign_storage (infoAlignment 1) ⟨0, 4, fun _ => 0⟩).addr % infoAlignment 1 = 0 ∧
        (4 : Nat) - (realign_storage (infoAlignment 1) ⟨0, 4, fun _ => 0⟩).len
          < infoAlignment 1)) := by
  decide

/-- C1 (amended): for every byte buffer and required alignment
A = max(header alignment, Char16 alignment), `realign_storage` either
returns an empty buffer or a sub-buffer whose start address is a multiple
of A and whose length decreased by at most A bytes relative to the original
buffer — strictly less than A exactly when the original start address was
not already a multiple of A: an already-aligned start loses exactly A
bytes. -/
theorem realign_alignment_preservation_amended (hdrAlign : Nat) (b : Buffer) :
    (realign_storage (infoAlignment hdrAlign) b).len = 0 ∨
    ((realign_storage (infoAlignment hdrAlign) b).addr % infoAlignment hdrAlign = 0 ∧
     b.len - (realign_storage (infoAlignment hdrAlign) b).len ≤ infoAlignment hdrAlign ∧
     (b.addr % infoAlignment hdrAlign ≠ 0 →
       b.len - (realign_storage (infoAlignment hdrAlign) b).len
         < infoAlignment hdrAlign) ∧
     (b.addr % infoAlignment hdrAlign = 0 →
       b.len - (realign_storage (infoAlignment hdrAlign) b).len
         = infoAlignment hdrAlign)) := by
  have hA : 0 < infoAlignment hdrAlign := infoAlignment_pos hdrAlign
  have hbounds := realignPadding_bounds (infoAlignment hdrAlign) b.addr hA
  have hmodlt : b.addr % infoAlignment hdrAlign < infoAlignment hdrAlign :=
    Nat.mod_lt b.addr hA
  by_cases h : b.len < realignPadding (infoAlignment hdrAlign) b.addr
  · left
    rw [realign_storage, if_pos h]
  · have hlen : (realign_storage (infoAlignment hdrAlign) b).len
        = b.len - realignPadding (infoAlignment hdrAlign) b.addr := by
      rw [realign_storage, if_neg h]
    have haddr : (realign_storage (infoAlignment hdrAlign) b).addr
        = b.addr + realignPadding (infoAlignment hdrAlign) b.addr := by
      rw [realign_storage, if_neg h]
    refine Or.inr ⟨?_, ?_, ?_, ?_⟩
    · rw [haddr]
      exact add_realignPadding_mod (infoAlignment hdrAlign) b.addr hA
    · rw [hlen]
      omega
    · intro hmis
      have h1 : 1 ≤ b.addr % infoAlignment hdrAlign := by omega
      have h2 : realignPadding (infoAlignment hdrAlign) b.addr
          < infoAlignment hdrAlign := by
        rw [realignPadding]
        omega
      rw [hlen]
      omega
    · intro haligned
      have hpadA : realignPadding (infoAlignment hdrAlign) b.addr
          = infoAlignment hdrAlign := by
        rw [realignPadding, haligned]
        omega
      rw [hlen, hpadA]
      omega

/-- Witness for C1 (amended): a misaligned buffer (address 1, A = 8,
padding 7) satisfies the aligned-and-shorter disjunct. -/
theorem realign_alignment_preservation_amended_witness :
    (realign_storage (infoAlignment 8) ⟨1, 20, fun _ => 0⟩).len = 0 ∨
    ((realign_storage (infoAlignment 8) ⟨1, 20, fun _ => 0⟩).addr % infoAlignment 8 = 0 ∧
     (20 : Nat) - (realign_storage (infoAlignment 8) ⟨1, 20, fun _ => 0⟩).len
       ≤ infoAlignment 8 ∧
     ((1 : Nat) % infoAlignment 8 ≠ 0 →
       (20 : Nat) - (realign_storage (infoAlignment 8) ⟨1, 20, fun _ => 0⟩).len
         < infoAlignment 8) ∧
     ((1 : Nat) % infoAlignment 8 = 0 →
       (20 : Nat) - (realign_storage (infoAlignment 8) ⟨1, 20, fun _ => 0⟩).len
         = infoAlignment 8)) :=
  realign_alignment_preservation_amended 8 ⟨1, 20, fun _ => 0⟩

/-- C9: `realign_storage` computes the padding as alignment minus (start
address mod alignment), a value between 1 and the alignment inclusive;
consequently a non-empty result never starts at the original start address,
an already-aligned buffer of length at least the alignment loses exactly
alignment-many bytes, and an already-aligned buffer shorter than the
alignment is reduced to the empty buffer. -/
theorem realign_padding_range_consequences (hdrAlign : Nat) (b : Buffer) :
    (realignPadding (infoAlignment hdrAlign) b.addr
        = infoAlignment hdrAlign - b.addr % infoAlignment hdrAlign ∧
      1 ≤ realignPadding (infoAlignment hdrAlign) b.addr ∧
      realignPadding (infoAlignment hdrAlign) b.addr ≤ infoAlignment hdrAlign) ∧
    ((realign_storage (infoAlignment hdrAlign) b).len ≠ 0 →
      (realign_storage (infoAlignment hdrAlign) b).addr ≠ b.addr) ∧
    (b.addr % infoAlignment hdrAlign = 0 → infoAlignment hdrAlign ≤ b.len →
      (realign_storage (infoAlignment hdrAlign) b).len
        = b.len - infoAlignment hdrAlign) ∧
    (b.addr % infoAlignment hdrAlign = 0 → b.len < infoAlignment hdrAlign →
      (realign_storage (infoAlignment hdrAlign) b).len = 0) := by
  have hA : 0 < infoAlignment hdrAlign := infoAlignment_pos hdrAlign
  have hbounds := realignPadding_bounds (infoAlignment hdrAlign) b.addr hA
  refine ⟨⟨rfl, hbounds⟩, ?_, ?_, ?_⟩
  · intro hne
    by_cases h : b.len < realignPadding (infoAlignment hdrAlign) b.addr
    · exfalso
      apply hne
      rw [realign_storage, if_pos h]
    · have haddr : (realign_storage (infoAlignment hdrAlign) b).addr
          = b.addr + realignPadding (infoAlignment hdrAlign) b.addr := by
        rw [realign_storage, if_neg h]
      rw [haddr]
      omega
  · intro haligned hlong
    have hpad : realignPadding (infoAlignment hdrAlign) b.addr = infoAlignment hdrAlign := by
      rw [realignPadding, haligned]
      omega
    rw [realign_storage, hpad, if_neg (by omega)]
  · intro haligned hshort
    have hpad : realignPadding (infoAlignment hdrAlign) b.addr = infoAlignment hdrAlign := by
      rw [realignPadding, haligned]
      omega
    rw [realign_storage, hpad, if_pos (by omega)]

/-- Witness for C9: an aligned buffer (address 16, A = 8) of length 20
loses exactly 8 bytes, and an aligned buffer of length 5 becomes empty. -/
theorem realign_padding_range_consequences_witness :
    1 ≤ realignPadding (infoAlignment 8) 16 ∧
    (realign_storage (infoAlignment 8) ⟨16, 20, fun _ => 0⟩).len = 20 - infoAlignment 8 ∧
    (realign_storage (infoAlignment 8) ⟨16, 5, fun _ => 0⟩).len = 0 :=
  ⟨(realign_padding_range_consequences 8 ⟨16, 20, fun _ => 0⟩).1.2.1,
   (realign_padding_range_consequences 8 ⟨16, 20, fun _ => 0⟩).2.2.1
     (by decide) (by decide),
   (realign_padding_range_consequences 8 ⟨16, 5, fun _ => 0⟩).2.2.2
     (by decide) (by decide)⟩

/-- C2: for every header value and every name whose scalars all fit in 16
bits, calling `new_impl` with a buffer that is, after realignment, shorter
than header size + (len(N)+1)*2 bytes fails with `InsufficientStorage`
carrying exactly that size, and calling it with a buffer of exactly that
size post-realignment succeeds, returning the record reference. -/
theorem new_impl_minimum_size_reporting {α : Type} (H : HeaderType α)
    (b : Buffer) (hdr : α) (name : List Nat)
    (hchars : ∀ c ∈ name, c ≤ 65535) :
    ((realign_storage (infoAlignment H.align) b).len < H.size + (name.length + 1) * 2 →
      (new_impl H b hdr name).1 =
        .error (.InsufficientStorage (H.size + (name.length + 1) * 2))) ∧
    ((realign_storage (infoAlignment H.align) b).len = H.size + (name.length + 1) * 2 →
      (new_impl H b hdr name).1 =
        .ok { addr := b.addr + realignPadding (infoAlignment H.align) b.addr,
              off := realignPadding (infoAlignment H.align) b.addr,
              nameLen := name.length + 1 }) := by
  constructor
  · intro hsmall
    rw [← info_size_eq] at hsmall ⊢
    rw [new_impl, if_pos hsmall]
  · intro hexact
    have hlen : info_size H name ≤ (realign_storage (infoAlignment H.align) b).len := by
      rw [info_size_eq]
      omega
    obtain ⟨d, heq, -, -, -⟩ := new_impl_ok_mem H b hdr name hchars hlen
    rw [heq]
    rfl

/-- Witness for C2, with the empty header (A = 2): length 1 post-realignment
is reported short of 4 bytes, and length exactly 4 succeeds. -/
theorem new_impl_minimum_size_reporting_witness :
    (new_impl fileSystemVolumeLabelHeaderType ⟨0, 3, fun _ => 0⟩ ⟨⟩ [72]).1 =
      .error (.InsufficientStorage
        (fileSystemVolumeLabelHeaderType.size + (([72] : List Nat).length + 1) * 2)) ∧
    (new_impl fileSystemVolumeLabelHeaderType ⟨0, 6, fun _ => 0⟩ ⟨⟩ [72]).1 =
      .ok { addr := 0 + realignPadding (infoAlignment fileSystemVolumeLabelHeaderType.align) 0,
            off := realignPadding (infoAlignment fileSystemVolumeLabelHeaderType.align) 0,
            nameLen := ([72] : List Nat).length + 1 } :=
  ⟨(new_impl_minimum_size_reporting fileSystemVolumeLabelHeaderType
      ⟨0, 3, fun _ => 0⟩ ⟨⟩ [72] (by decide)).1 (by decide),
   (new_impl_minimum_size_reporting fileSystemVolumeLabelHeaderType
      ⟨0, 6, fun _ => 0⟩ ⟨⟩ [72] (by decide)).2 (by decide)⟩

/-- C6: when the buffer is large enough to pass the capacity check and the
name contains a scalar with no 16-bit representation, the build fails with
`InvalidChar` carrying the first such scalar, and no record reference is
returned. -/
theorem new_impl_invalid_char_first {α : Type} (H : HeaderType α)
    (b : Buffer) (hdr : α) (name : List Nat) (c : Nat)
    (hfirst : firstInvalidChar name = some c)
    (hbig : info_size H name ≤ (realign_storage (infoAlignment H.align) b).len) :
    (new_impl H b hdr name).1 = .error (.InvalidChar c) := by
  have hnotlt :
      ¬ ((realign_storage (infoAlignment H.align) b).len < info_size H name) := by
    omega
  have h1 := writeName_first_invalid name
    (writeBytes b.data (realignPadding (infoAlignment H.align) b.addr) (H.enc hdr))
    (realignPadding (infoAlignment H.align) b.addr + H.size) c hfirst
  rw [new_impl, if_neg hnotlt]
  rcases hw : writeName
      (writeBytes b.data (realignPadding (infoAlignment H.align) b.addr) (H.enc hdr))
      (realignPadding (infoAlignment H.align) b.addr + H.size) name with ⟨o, d⟩
  rw [hw] at h1
  cases o with
  | none => simp at h1
  | some c2 =>
    simp only at h1
    rw [Option.some_inj] at h1
    subst h1
    simp only

/-- Witness for C6: with the empty header, a large enough buffer and the
name [70000], the build fails with `InvalidChar 70000`. -/
theorem new_impl_invalid_char_first_witness :
    (new_impl fileSystemVolumeLabelHeaderType ⟨0, 8, fun _ => 0⟩ ⟨⟩ [70000]).1 =
      .error (.InvalidChar 70000) :=
  new_impl_invalid_char_first fileSystemVolumeLabelHeaderType
    ⟨0, 8, fun _ => 0⟩ ⟨⟩ [70000] 70000 (by decide) (by decide)

/-- C7: whenever the builder fails with `InsufficientStorage`, the backing
buffer is returned completely unchanged — the header and name writes happen
only after the capacity check has passed. -/
theorem insufficient_storage_keeps_buffer_intact {α : Type} (H : HeaderType α)
    (b : Buffer) (hdr : α) (name : List Nat) (n : Nat)
    (h : (new_impl H b hdr name).1 = .error (.InsufficientStorage n)) :
    (new_impl H b hdr name).2 = b := by
  by_cases hlt : (realign_storage (infoAlignment H.align) b).len < info_size H name
  · rw [new_impl, if_pos hlt]
  · exfalso
    rcases hw : writeName
        (writeBytes b.data (realignPadding (infoAlignment H.align) b.addr) (H.enc hdr))
        (realignPadding (infoAlignment H.align) b.addr + H.size) name with ⟨o, d⟩
    cases o with
    | some c2 =>
      have h1 : (new_impl H b hdr name).1 = .error (.InvalidChar c2) := by
        rw [new_impl, if_neg hlt, hw]
      rw [h1] at h
      simp at h
    | none =>
      have h1 : (new_impl H b hdr name).1 =
          .ok { addr := b.addr + realignPadding (infoAlignment H.align) b.addr,
                off := realignPadding (infoAlignment H.align) b.addr,
                nameLen := name_length_ucs2 name } := by
        rw [new_impl, if_neg hlt, hw]
      rw [h1] at h
      simp at h

/-- Witness for C7: a too-small buffer is returned untouched alongside the
`InsufficientStorage` error. -/
theorem insufficient_storage_keeps_buffer_intact_witness :
    (new_impl fileSystemVolumeLabelHeaderType ⟨0, 1, fun _ => 0⟩ ⟨⟩ []).2 =
      ⟨0, 1, fun _ => 0⟩ :=
  insufficient_storage_keeps_buffer_intact fileSystemVolumeLabelHeaderType
    ⟨0, 1, fun _ => 0⟩ ⟨⟩ [] 2 (by rfl)

/-- Inversion of a successful `new_impl`: the returned reference is the one
at the realigned offset, with `name_length_ucs2` code units of name. -/
theorem new_impl_ok_inv {α : Type} (H : HeaderType α) (b : Buffer) (hdr : α)
    (name : List Nat) (r : InfoRef) (b1 : Buffer)
    (h : new_impl H b hdr name = (.ok r, b1)) :
    r = { addr := b.addr + realignPadding (infoAlignment H.align) b.addr,
          off := realignPadding (infoAlignment H.align) b.addr,
          nameLen := name_length_ucs2 name } := by
  by_cases hlt : (realign_storage (infoAlignment H.align) b).len < info_size H name
  · have h1 : new_impl H b hdr name =
        (.error (.InsufficientStorage (info_size H name)), b) := by
      rw [new_impl, if_pos hlt]
    rw [h1] at h
    simp at h
  · rcases hw : writeName
        (writeBytes b.data (realignPadding (infoAlignment H.align) b.addr) (H.enc hdr))
        (realignPadding (infoAlignment H.align) b.addr + H.size) name with ⟨o, d⟩
    cases o with
    | some c2 =>
      have h1 : (new_impl H b hdr name).1 = .error (.InvalidChar c2) := by
        rw [new_impl, if_neg hlt, hw]
      rw [h] at h1
      simp at h1
    | none =>
      have h1 : new_impl H b hdr name =
          (.ok { addr := b.addr + realignPadding (infoAlignment H.align) b.addr,
                 off := realignPadding (infoAlignment H.align) b.addr,
                 nameLen := name_length_ucs2 name },
           { b with data :=
              (writeBytes d
                (realignPadding (infoAlignment H.align) b.addr + H.size
                  + char16Size * name.length)
                (encLE NUL_16 2)) }) := by
        rw [new_impl, if_neg hlt, hw]
      rw [h1] at h
      rw [Prod.mk.injEq] at h
      have h2 := h.1
      rw [Except.ok.injEq] at h2
      exact h2.symm

/-- Inversion of a successful `FileInfo::new`: the result comes from a
successful `new_impl` followed by the store of `size_of_val` into the
`size` field at offset 0 of the record. -/
theorem fileInfo_new_ok_inv (b : Buffer) (fs ps : Nat) (ct lat mt : Time)
    (attrv : Nat) (name : List Nat) (r : InfoRef) (b2 : Buffer)
    (h : FileInfo.new b fs ps ct lat mt attrv name = (.ok r, b2)) :
    r = { addr := b.addr + realignPadding (infoAlignment fileInfoHeaderType.align) b.addr,
          off := realignPadding (infoAlignment fileInfoHeaderType.align) b.addr,
          nameLen := name_length_ucs2 name } ∧
    ∃ b1 : Buffer,
      new_impl fileInfoHeaderType b
        { size := 0, file_size := fs, physical_size := ps, create_time := ct,
          last_access_time := lat, modification_time := mt, attr := attrv }
        name = (.ok r, b1) ∧
      b2 = { b1 with data :=
        (writeBytes b1.data r.off
          (encLE (size_of_val_info fileInfoHeaderType r) 8)) } := by
  rcases hni : new_impl fileInfoHeaderType b
      { size := 0, file_size := fs, physical_size := ps, create_time := ct,
        last_access_time := lat, modification_time := mt, attr := attrv }
      name with ⟨res, b1⟩
  cases res with
  | error e =>
    have h1 : FileInfo.new b fs ps ct lat mt attrv name = (.error e, b1) := by
      rw [FileInfo.new, hni]
    rw [h1] at h
    simp at h
  | ok info =>
    have h1 : FileInfo.new b fs ps ct lat mt attrv name =
        (.ok info, { b1 with data :=
          (writeBytes b1.data info.off
            (encLE (size_of_val_info fileInfoHeaderType info) 8)) }) := by
      rw [FileInfo.new, hni]
    rw [h1] at h
    rw [Prod.mk.injEq] at h
    have h2 := h.1
    rw [Except.ok.injEq] at h2
    subst h2
    exact ⟨new_impl_ok_inv fileInfoHeaderType b _ name info b1 hni,
      ⟨b1, rfl, h.2.symm⟩⟩

/-- Inversion of a successful `FileSystemInfo::new`, as for `FileInfo`. -/
theorem fileSystemInfo_new_ok_inv (b : Buffer) (ro : Bool)
    (vs fsp bsz : Nat) (label : List Nat) (r : InfoRef) (b2 : Buffer)
    (h : FileSystemInfo.new b ro vs fsp bsz label = (.ok r, b2)) :
    r = { addr := b.addr + realignPadding (infoAlignment fileSystemInfoHeaderType.align) b.addr,
          off := realignPadding (infoAlignment fileSystemInfoHeaderType.align) b.addr,
          nameLen := name_length_ucs2 label } ∧
    ∃ b1 : Buffer,
      new_impl fileSystemInfoHeaderType b
        { size := 0, read_only := ro, volume_size := vs, free_space := fsp,
          block_size := bsz } label = (.ok r, b1) ∧
      b2 = { b1 with data :=
        (writeBytes b1.data r.off
          (encLE (size_of_val_info fileSystemInfoHeaderType r) 8)) } := by
  rcases hni : new_impl fileSystemInfoHeaderType b
      { size := 0, read_only := ro, volume_size := vs, free_space := fsp,
        block_size := bsz } label with ⟨res, b1⟩
  cases res with
  | error e =>
    have h1 : FileSystemInfo.new b ro vs fsp bsz label = (.error e, b1) := by
      rw [FileSystemInfo.new, hni]
    rw [h1] at h
    simp at h
  | ok info =>
    have h1 : FileSystemInfo.new b ro vs fsp bsz label =
        (.ok info, { b1 with data :=
          (writeBytes b1.data info.off
            (encLE (size_of_val_info fileSystemInfoHeaderType info) 8)) }) := by
      rw [FileSystemInfo.new, hni]
    rw [h1] at h
    rw [Prod.mk.injEq] at h
    have h2 := h.1
    rw [Except.ok.injEq] at h2
    subst h2
    exact ⟨new_impl_ok_inv fileSystemInfoHeaderType b _ label info b1 hni,
      ⟨b1, rfl, h.2.symm⟩⟩

/-- C5, as stated, is false: `mem::size_of_val` rounds the size of the
dynamically sized record up to its alignment, so the stored `size` field is
the rounded value, not the exact byte length of header plus name.
Concretely, a successful `FileInfo::new` with the one-character name [72]
(record alignment 8, exact length 80 + 2*2 = 84 bytes) stores 88 in the
`size` field. -/
theorem size_field_stores_rounded_size_cex :
    (FileInfo.new ⟨0, 100, fun _ => 0⟩ 3 4 ⟨5⟩ ⟨6⟩ ⟨7⟩ 1 [72]).1 =
      .ok { addr := 8, off := 8, nameLen := 2 } ∧
    FileInfo.size_field
      (FileInfo.new ⟨0, 100, fun _ => 0⟩ 3 4 ⟨5⟩ ⟨6⟩ ⟨7⟩ 1 [72]).2.data 8 = 88 ∧
    (88 : Nat) ≠ 80 + (([72] : List Nat).length + 1) * 2 :=
  ⟨rfl, by decide, by decide⟩

/-- C5 (amended): whenever `FileInfo::new` or `FileSystemInfo::new`
succeeds, the `size` field of the returned record equals the byte length of
header plus name including the terminator, rounded up to the alignment of
the record (the maximum of the header alignment and the Char16 alignment):
alignUp (header size + (len(N)+1)*2) A; the zero the constructor placed in
the `size` argument of the header never survives. -/
theorem new_sets_size_field (b : Buffer) (fs ps : Nat) (ct lat mt : Time)
    (attrv : Nat) (name : List Nat) (r : InfoRef) (b2 : Buffer)
    (bb : Buffer) (ro : Bool) (vs fsp bsz : Nat) (label : List Nat)
    (r2 : InfoRef) (b3 : Buffer) :
    (FileInfo.new b fs ps ct lat mt attrv name = (.ok r, b2) →
      alignUp (80 + (name.length + 1) * 2) (infoAlignment fileInfoHeaderType.align)
        < 2 ^ 64 →
      FileInfo.size_field b2.data r.off =
        alignUp (80 + (name.length + 1) * 2) (infoAlignment fileInfoHeaderType.align)) ∧
    (FileSystemInfo.new bb ro vs fsp bsz label = (.ok r2, b3) →
      alignUp (40 + (label.length + 1) * 2) (infoAlignment fileSystemInfoHeaderType.align)
        < 2 ^ 64 →
      FileSystemInfo.size_field b3.data r2.off =
        alignUp (40 + (label.length + 1) * 2)
          (infoAlignment fileSystemInfoHeaderType.align)) := by
  constructor
  · intro h hbound
    obtain ⟨hr, b1, hni, hb2⟩ := fileInfo_new_ok_inv b fs ps ct lat mt attrv name r b2 h
    have hdata : b2.data =
        writeBytes b1.data r.off (encLE (size_of_val_info fileInfoHeaderType r) 8) := by
      rw [hb2]
    have hnl : r.nameLen = name.length + 1 := by
      rw [hr]
      rfl
    have hread := readLE_writeBytes_encLE b1.data r.off
      (size_of_val_info fileInfoHeaderType r) 8
    rw [FileInfo.size_field, hdata, hread, size_of_val_info, hnl]
    have e1 : fileInfoHeaderType.size + char16Size * (name.length + 1)
        = 80 + (name.length + 1) * 2 := by
      simp only [fileInfoHeaderType, char16Size]
      omega
    have e256 : (256 : Nat) ^ 8 = 2 ^ 64 := by norm_num
    rw [e1, e256, Nat.mod_eq_of_lt hbound]
  · intro h hbound
    obtain ⟨hr, b1, hni, hb3⟩ :=
      fileSystemInfo_new_ok_inv bb ro vs fsp bsz label r2 b3 h
    have hdata : b3.data =
        writeBytes b1.data r2.off (encLE (size_of_val_info fileSystemInfoHeaderType r2) 8) := by
      rw [hb3]
    have hnl : r2.nameLen = label.length + 1 := by
      rw [hr]
      rfl
    have hread := readLE_writeBytes_encLE b1.data r2.off
      (size_of_val_info fileSystemInfoHeaderType r2) 8
    rw [FileSystemInfo.size_field, hdata, hread, size_of_val_info, hnl]
    have e1 : fileSystemInfoHeaderType.size + char16Size * (label.length + 1)
        = 40 + (label.length + 1) * 2 := by
      simp only [fileSystemInfoHeaderType, char16Size]
      omega
    have e256 : (256 : Nat) ^ 8 = 2 ^ 64 := by norm_num
    rw [e1, e256, Nat.mod_eq_of_lt hbound]

/-- Witness for C5 (amended): concrete builds of both record kinds, with
the `size` field reading back as the rounded record length (88 and 48
bytes, for exact lengths 84 and 44 at alignment 8). -/
theorem new_sets_size_field_witness :
    FileInfo.size_field
      (FileInfo.new ⟨0, 100, fun _ => 0⟩ 3 4 ⟨5⟩ ⟨6⟩ ⟨7⟩ 1 [73]).2.data 8 = 88 ∧
    FileSystemInfo.size_field
      (FileSystemInfo.new ⟨0, 100, fun _ => 0⟩ true 9 10 11 [73]).2.data 8 = 48 :=
  ⟨(new_sets_size_field ⟨0, 100, fun _ => 0⟩ 3 4 ⟨5⟩ ⟨6⟩ ⟨7⟩ 1 [73]
      ⟨8, 8, 2⟩ (FileInfo.new ⟨0, 100, fun _ => 0⟩ 3 4 ⟨5⟩ ⟨6⟩ ⟨7⟩ 1 [73]).2
      ⟨0, 100, fun _ => 0⟩ true 9 10 11 [73]
      ⟨8, 8, 2⟩ (FileSystemInfo.new ⟨0, 100, fun _ => 0⟩ true 9 10 11 [73]).2).1
      (by rfl) (by decide),
   (new_sets_size_field ⟨0, 100, fun _ => 0⟩ 3 4 ⟨5⟩ ⟨6⟩ ⟨7⟩ 1 [73]
      ⟨8, 8, 2⟩ (FileInfo.new ⟨0, 100, fun _ => 0⟩ 3 4 ⟨5⟩ ⟨6⟩ ⟨7⟩ 1 [73]).2
      ⟨0, 100, fun _ => 0⟩ true 9 10 11 [73]
      ⟨8, 8, 2⟩ (FileSystemInfo.new ⟨0, 100, fun _ => 0⟩ true 9 10 11 [73]).2).2
      (by rfl) (by decide)⟩

/-- Lookup inside the left part of an append. -/
theorem getD_append_in (xs ys : List Nat) (j : Nat) (hj : j < xs.length) :
    (xs ++ ys).getD j 0 = xs.getD j 0 :=
  List.getD_append xs ys 0 j hj

/-- Lookup at offset `n + j` of an append whose left part has length `n`. -/
theorem getD_append_off (xs ys : List Nat) (n j : Nat) (hn : xs.length = n) :
    (xs ++ ys).getD (n + j) 0 = ys.getD j 0 := by
  subst hn
  rw [List.getD_append_right xs ys 0 (xs.length + j) (by omega)]
  congr 1
  omega

/-- The bytes of `encFileInfoHeader` at offsets 8..15 are the `file_size`
field. -/
theorem encFIH_getD_file_size (h : FileInfoHeader) (j : Nat) (hj : j < 8) :
    (encFileInfoHeader h).getD (8 + j) 0 = (encLE h.file_size 8).getD j 0 := by
  rw [encFileInfoHeader]
  rw [getD_append_in _ _ _ (by simp [encLE_length, timeSize]; omega)]
  rw [getD_append_in _ _ _ (by simp [encLE_length, timeSize]; omega)]
  rw [getD_append_in _ _ _ (by simp [encLE_length, timeSize]; omega)]
  rw [getD_append_in _ _ _ (by simp [encLE_length, timeSize]; omega)]
  rw [getD_append_in _ _ _ (by simp [encLE_length]; omega)]
  rw [getD_append_off _ _ 8 j (by simp [encLE_length])]

/-- The bytes of `encFileInfoHeader` at offsets 16..23 are the
`physical_size` field. -/
theorem encFIH_getD_physical_size (h : FileInfoHeader) (j : Nat) (hj : j < 8) :
    (encFileInfoHeader h).getD (16 + j) 0 = (encLE h.physical_size 8).getD j 0 := by
  rw [encFileInfoHeader]
  rw [getD_append_in _ _ _ (by simp [encLE_length, timeSize]; omega)]
  rw [getD_append_in _ _ _ (by simp [encLE_length, timeSize]; omega)]
  rw [getD_append_in _ _ _ (by simp [encLE_length, timeSize]; omega)]
  rw [getD_append_in _ _ _ (by simp [encLE_length, timeSize]; omega)]
  rw [getD_append_off _ _ 16 j (by simp [encLE_length])]

/-- The bytes of `encFileInfoHeader` at offsets 24..39 are the
`create_time` field. -/
theorem encFIH_getD_create_time (h : FileInfoHeader) (j : Nat) (hj : j < 16) :
    (encFileInfoHeader h).getD (24 + j) 0
      = (encLE h.create_time.val timeSize).getD j 0 := by
  rw [encFileInfoHeader]
  rw [getD_append_in _ _ _ (by simp [encLE_length, timeSize]; omega)]
  rw [getD_append_in _ _ _ (by simp [encLE_length, timeSize]; omega)]
  rw [getD_append_in _ _ _ (by simp [encLE_length, timeSize]; omega)]
  rw [getD_append_off _ _ 24 j (by simp [encLE_length])]

/-- The bytes of `encFileInfoHeader` at offsets 40..55 are the
`last_access_time` field. -/
theorem encFIH_getD_last_access_time (h : FileInfoHeader) (j : Nat) (hj : j < 16) :
    (encFileInfoHeader h).getD (40 + j) 0
      = (encLE h.last_access_time.val timeSize).getD j 0 := by
  rw [encFileInfoHeader]
  rw [getD_append_in _ _ _ (by simp [encLE_length, timeSize]; omega)]
  rw [getD_append_in _ _ _ (by simp [encLE_length, timeSize]; omega)]
  rw [getD_append_off _ _ 40 j (by simp [encLE_length, timeSize])]

/-- The bytes of `encFileInfoHeader` at offsets 56..71 are the
`modification_time` field. -/
theorem encFIH_getD_modification_time (h : FileInfoHeader) (j : Nat) (hj : j < 16) :
    (encFileInfoHeader h).getD (56 + j) 0
      = (encLE h.modification_time.val timeSize).getD j 0 := by
  rw [encFileInfoHeader]
  rw [getD_append_in _ _ _ (by simp [encLE_length, timeSize]; omega)]
  rw [getD_append_off _ _ 56 j (by simp [encLE_length, timeSize])]

/-- The bytes of `encFileInfoHeader` at offsets 72..79 are the `attribute`
field. -/
theorem encFIH_getD_attr (h : FileInfoHeader) (j : Nat) (hj : j < 8) :
    (encFileInfoHeader h).getD (72 + j) 0 = (encLE h.attr 8).getD j 0 := by
  rw [encFileInfoHeader]
  rw [getD_append_off _ _ 72 j (by simp [encLE_length, timeSize])]

/-- Reading a header field out of a memory that holds the header bytes. -/
theorem readLE_header_field (d : Nat → Nat) (pad : Nat) (hdr0 : FileInfoHeader)
    (hhdr : ∀ j < 80, d (pad + j) = (encFileInfoHeader hdr0).getD j 0)
    (off k v : Nat) (hoff : off + k ≤ 80)
    (hchunk : ∀ j < k, (encFileInfoHeader hdr0).getD (off + j) 0 = (encLE v k).getD j 0) :
    readLE d (pad + off) k = v % 256 ^ k := by
  apply readLE_of_bytes
  intro j hj
  have e : pad + off + j = pad + (off + j) := by omega
  rw [e, hhdr (off + j) (by omega), hchunk j hj]

/-- A defaulted in-range lookup is a member of the list. -/
theorem getD_mem_of_lt (l : List Nat) (i : Nat) (h : i < l.length) :
    l.getD i 0 ∈ l := by
  rw [List.getD_eq_getElem l 0 h]
  exact List.getElem_mem h

/-- C4: for a record freshly and successfully built by `new_impl`,
`from_uefi` applied at the record start with the same header type finds
exactly the code units the builder wrote (name plus terminator), so the
reconstructed extent is header size + (code units found) * 2 and the
decoded name content equals the built name — provided the name contains no
zero scalar. -/
theorem from_uefi_view_agreement {α : Type} (H : HeaderType α) (b : Buffer)
    (hdr : α) (name : List Nat)
    (hchars : ∀ c ∈ name, c ≤ 65535) (hnonul : 0 ∉ name)
    (hlen : info_size H name ≤ (realign_storage (infoAlignment H.align) b).len) :
    (new_impl H b hdr name).1 =
      .ok { addr := b.addr + realignPadding (infoAlignment H.align) b.addr,
            off := realignPadding (infoAlignment H.align) b.addr,
            nameLen := name.length + 1 } ∧
    from_uefi H (new_impl H b hdr name).2.data
      (realignPadding (infoAlignment H.align) b.addr) (name.length + 1)
      = some (name.length + 1) ∧
    recordExtent H (name.length + 1) = H.size + (name.length + 1) * 2 ∧
    readCells (new_impl H b hdr name).2.data
      (realignPadding (infoAlignment H.align) b.addr + H.size) (name.length + 1)
      = name := by
  obtain ⟨d, heq, hhdr, hcells, hterm⟩ := new_impl_ok_mem H b hdr name hchars hlen
  have hfst : (new_impl H b hdr name).1 =
      .ok { addr := b.addr + realignPadding (infoAlignment H.align) b.addr,
            off := realignPadding (infoAlignment H.align) b.addr,
            nameLen := name.length + 1 } := by
    rw [heq]
    rfl
  have hdata : (new_impl H b hdr name).2.data = d := by
    rw [heq]
  have hnz : ∀ i < name.length,
      readU16 d (realignPadding (infoAlignment H.align) b.addr + H.size + 2 * i)
        ≠ 0 := by
    intro i hi
    rw [hcells i hi]
    intro h0
    exact hnonul (h0 ▸ getD_mem_of_lt name i hi)
  refine ⟨hfst, ?_, ?_, ?_⟩
  · rw [hdata, from_uefi]
    exact scanLenWithNul_spec name.length d
      (realignPadding (infoAlignment H.align) b.addr + H.size) hnz hterm
      (name.length + 1) (by omega)
  · rw [recordExtent, char16Size]
    omega
  · rw [hdata]
    exact readCells_spec name d
      (realignPadding (infoAlignment H.align) b.addr + H.size) hcells
      (fun c hc h0 => hnonul (h0 ▸ hc)) hterm (name.length + 1) (by omega)

/-- Witness for C4: building the name [72, 73] with the empty header and
reading it back through `from_uefi` finds 3 code units and the name. -/
theorem from_uefi_view_agreement_witness :
    (new_impl fileSystemVolumeLabelHeaderType ⟨0, 10, fun _ => 0⟩ ⟨⟩ [72, 73]).1 =
      .ok { addr := 0 + realignPadding (infoAlignment fileSystemVolumeLabelHeaderType.align) 0,
            off := realignPadding (infoAlignment fileSystemVolumeLabelHeaderType.align) 0,
            nameLen := 3 } ∧
    from_uefi fileSystemVolumeLabelHeaderType
      (new_impl fileSystemVolumeLabelHeaderType ⟨0, 10, fun _ => 0⟩ ⟨⟩ [72, 73]).2.data
      (realignPadding (infoAlignment fileSystemVolumeLabelHeaderType.align) 0) 3
      = some 3 ∧
    recordExtent fileSystemVolumeLabelHeaderType 3 =
      fileSystemVolumeLabelHeaderType.size + 3 * 2 ∧
    readCells (new_impl fileSystemVolumeLabelHeaderType ⟨0, 10, fun _ => 0⟩ ⟨⟩ [72, 73]).2.data
      (realignPadding (infoAlignment fileSystemVolumeLabelHeaderType.align) 0
        + fileSystemVolumeLabelHeaderType.size) 3
      = [72, 73] :=
  from_uefi_view_agreement fileSystemVolumeLabelHeaderType ⟨0, 10, fun _ => 0⟩ ⟨⟩
    [72, 73] (by decide) (by decide) (by decide)

/-- C8, as stated, is false: the builder accepts a name containing the zero
scalar, and the resulting record then holds a zero code unit before its
final terminator.  Concretely, with the empty header and name [0], the
build succeeds (2 code units of name) and the code unit at index 0 — which
precedes the terminator at index 1 — is zero. -/
theorem builder_accepts_embedded_nul_cex :
    (new_impl fileSystemVolumeLabelHeaderType ⟨0, 6, fun _ => 0⟩ ⟨⟩ [0]).1 =
      .ok { addr := 2, off := 2, nameLen := 2 } ∧
    readU16 (new_impl fileSystemVolumeLabelHeaderType ⟨0, 6, fun _ => 0⟩ ⟨⟩ [0]).2.data
      (2 + fileSystemVolumeLabelHeaderType.size + 2 * 0) = 0 :=
  ⟨rfl, by decide⟩

/-- C8 (amended): every record successfully built from a name that contains
no zero scalar satisfies the name invariant: each encoded code unit
preceding the written terminator is non-zero. -/
theorem name_invariant_amended {α : Type} (H : HeaderType α) (b : Buffer)
    (hdr : α) (name : List Nat)
    (hchars : ∀ c ∈ name, c ≤ 65535) (hnonul : 0 ∉ name)
    (hlen : info_size H name ≤ (realign_storage (infoAlignment H.align) b).len) :
    (new_impl H b hdr name).1 =
      .ok { addr := b.addr + realignPadding (infoAlignment H.align) b.addr,
            off := realignPadding (infoAlignment H.align) b.addr,
            nameLen := name.length + 1 } ∧
    ∀ i < name.length,
      readU16 (new_impl H b hdr name).2.data
        (realignPadding (infoAlignment H.align) b.addr + H.size + 2 * i) ≠ 0 := by
  obtain ⟨d, heq, hhdr, hcells, hterm⟩ := new_impl_ok_mem H b hdr name hchars hlen
  have hdata : (new_impl H b hdr name).2.data = d := by
    rw [heq]
  refine ⟨by rw [heq]; rfl, ?_⟩
  intro i hi
  rw [hdata, hcells i hi]
  intro h0
  exact hnonul (h0 ▸ getD_mem_of_lt name i hi)

/-- Witness for C8 (amended): the record built from the name [72] has a
non-zero code unit before its terminator. -/
theorem name_invariant_amended_witness :
    (new_impl fileSystemVolumeLabelHeaderType ⟨0, 6, fun _ => 0⟩ ⟨⟩ [72]).1 =
      .ok { addr := 0 + realignPadding (infoAlignment fileSystemVolumeLabelHeaderType.align) 0,
            off := realignPadding (infoAlignment fileSystemVolumeLabelHeaderType.align) 0,
            nameLen := 2 } ∧
    ∀ i < ([72] : List Nat).length,
      readU16 (new_impl fileSystemVolumeLabelHeaderType ⟨0, 6, fun _ => 0⟩ ⟨⟩ [72]).2.data
        (realignPadding (infoAlignment fileSystemVolumeLabelHeaderType.align) 0
          + fileSystemVolumeLabelHeaderType.size + 2 * i) ≠ 0 :=
  name_invariant_amended fileSystemVolumeLabelHeaderType ⟨0, 6, fun _ => 0⟩ ⟨⟩
    [72] (by decide) (by decide) (by decide)

/-- C3, as stated, is false on two counts.  The zero scalar is
representable in 16 bits, yet a name containing it does not survive the
round trip — the decoder stops at the first zero code unit: building a
`FileInfo` record with the name [0] into a large zero-initialized buffer
succeeds, but `file_name` then decodes the empty name instead of [0].
Moreover the self-reported `size` field does not equal the record's true
encoded byte length (80 + 2*2 = 84 here): `mem::size_of_val` rounds the
record size up to its alignment 8, so 88 is stored. -/
theorem fileinfo_roundtrip_embedded_nul_cex :
    (FileInfo.new ⟨0, 100, fun _ => 0⟩ 0 0 ⟨0⟩ ⟨0⟩ ⟨0⟩ 0 [0]).1 =
      .ok { addr := 8, off := 8, nameLen := 2 } ∧
    FileInfo.file_name
      (FileInfo.new ⟨0, 100, fun _ => 0⟩ 0 0 ⟨0⟩ ⟨0⟩ ⟨0⟩ 0 [0]).2.data 8 2
      ≠ [0] ∧
    FileInfo.size_field
      (FileInfo.new ⟨0, 100, fun _ => 0⟩ 0 0 ⟨0⟩ ⟨0⟩ ⟨0⟩ 0 [0]).2.data 8 = 88 ∧
    (88 : Nat) ≠ 80 + (([0] : List Nat).length + 1) * 2 :=
  ⟨rfl, by decide, by decide, by decide⟩

/-- C3 (amended): for every header value and every name composed only of
scalars representable in 16 bits and containing no zero scalar, building a
`FileInfo` record into a sufficiently large zero-initialized buffer and
reading it back through the typed accessors yields the name and every
header field unchanged, except the self-reported `size` field, which equals
the value stored by `mem::size_of_val`: the encoded byte length
80 + (len(N)+1)*2 rounded up to the record alignment. -/
theorem fileinfo_roundtrip_amended (b : Buffer) (fs ps : Nat) (ct lat mt : Time)
    (attrv : Nat) (name : List Nat)
    (hzero : ∀ i, b.data i = 0)
    (hchars : ∀ c ∈ name, c ≤ 65535)
    (hnonul : 0 ∉ name)
    (hfs : fs < 2 ^ 64) (hps : ps < 2 ^ 64)
    (hct : ct.val < 2 ^ 128) (hlat : lat.val < 2 ^ 128) (hmt : mt.val < 2 ^ 128)
    (hattr : attrv < 2 ^ 64)
    (hbound : alignUp (80 + (name.length + 1) * 2)
      (infoAlignment fileInfoHeaderType.align) < 2 ^ 64)
    (hlen : info_size fileInfoHeaderType name
      ≤ (realign_storage (infoAlignment fileInfoHeaderType.align) b).len) :
    (FileInfo.new b fs ps ct lat mt attrv name).1 =
      .ok { addr := b.addr + realignPadding (infoAlignment fileInfoHeaderType.align) b.addr,
            off := realignPadding (infoAlignment fileInfoHeaderType.align) b.addr,
            nameLen := name.length + 1 } ∧
    FileInfo.file_size (FileInfo.new b fs ps ct lat mt attrv name).2.data
      (realignPadding (infoAlignment fileInfoHeaderType.align) b.addr) = fs ∧
    FileInfo.physical_size (FileInfo.new b fs ps ct lat mt attrv name).2.data
      (realignPadding (infoAlignment fileInfoHeaderType.align) b.addr) = ps ∧
    FileInfo.create_time (FileInfo.new b fs ps ct lat mt attrv name).2.data
      (realignPadding (infoAlignment fileInfoHeaderType.align) b.addr) = ct ∧
    FileInfo.last_access_time (FileInfo.new b fs ps ct lat mt attrv name).2.data
      (realignPadding (infoAlignment fileInfoHeaderType.align) b.addr) = lat ∧
    FileInfo.modification_time (FileInfo.new b fs ps ct lat mt attrv name).2.data
      (realignPadding (infoAlignment fileInfoHeaderType.align) b.addr) = mt ∧
    FileInfo.attr (FileInfo.new b fs ps ct lat mt attrv name).2.data
      (realignPadding (infoAlignment fileInfoHeaderType.align) b.addr) = attrv ∧
    FileInfo.size_field (FileInfo.new b fs ps ct lat mt attrv name).2.data
      (realignPadding (infoAlignment fileInfoHeaderType.align) b.addr)
      = alignUp (80 + (name.length + 1) * 2)
          (infoAlignment fileInfoHeaderType.align) ∧
    FileInfo.file_name (FileInfo.new b fs ps ct lat mt attrv name).2.data
      (realignPadding (infoAlignment fileInfoHeaderType.align) b.addr)
      (name.length + 1) = name := by
  obtain ⟨ctv⟩ := ct
  obtain ⟨latv⟩ := lat
  obtain ⟨mtv⟩ := mt
  obtain ⟨d, heq, hhdr, hcells, hterm⟩ := new_impl_ok_mem fileInfoHeaderType b
    { size := 0, file_size := fs, physical_size := ps, create_time := ⟨ctv⟩,
      last_access_time := ⟨latv⟩, modification_time := ⟨mtv⟩, attr := attrv }
    name hchars hlen
  have hhdr80 : ∀ j < 80, d (realignPadding (infoAlignment fileInfoHeaderType.align) b.addr + j)
      = (encFileInfoHeader
          { size := 0, file_size := fs, physical_size := ps, create_time := ⟨ctv⟩,
            last_access_time := ⟨latv⟩, modification_time := ⟨mtv⟩, attr := attrv }).getD j 0 :=
    hhdr
  have hcells80 : ∀ i < name.length,
      readU16 d (realignPadding (infoAlignment fileInfoHeaderType.align) b.addr
        + 80 + 2 * i) = name.getD i 0 :=
    hcells
  have hterm80 :
      readU16 d (realignPadding (infoAlignment fileInfoHeaderType.align) b.addr
        + 80 + 2 * name.length) = 0 :=
    hterm
  have hfst : (FileInfo.new b fs ps ⟨ctv⟩ ⟨latv⟩ ⟨mtv⟩ attrv name).1 =
      .ok { addr := b.addr + realignPadding (infoAlignment fileInfoHeaderType.align) b.addr,
            off := realignPadding (infoAlignment fileInfoHeaderType.align) b.addr,
            nameLen := name.length + 1 } := by
    rw [FileInfo.new, heq]
    rfl
  have hd2 : (FileInfo.new b fs ps ⟨ctv⟩ ⟨latv⟩ ⟨mtv⟩ attrv name).2.data
      = writeBytes d (realignPadding (infoAlignment fileInfoHeaderType.align) b.addr)
          (encLE (alignUp (80 + 2 * (name.length + 1))
            (infoAlignment fileInfoHeaderType.align)) 8) := by
    rw [FileInfo.new, heq]
    rfl
  have e256 : (256 : Nat) ^ 8 = 2 ^ 64 := by norm_num
  have e25616 : (256 : Nat) ^ 16 = 2 ^ 128 := by norm_num
  have hframe8 : ∀ off2 k : Nat,
      realignPadding (infoAlignment fileInfoHeaderType.align) b.addr + 8 ≤ off2 →
      readLE (writeBytes d (realignPadding (infoAlignment fileInfoHeaderType.align) b.addr)
        (encLE (alignUp (80 + 2 * (name.length + 1))
          (infoAlignment fileInfoHeaderType.align)) 8)) off2 k = readLE d off2 k := by
    intro off2 k hle
    apply readLE_writeBytes_frame
    rw [encLE_length]
    omega
  refine ⟨hfst, ?_, ?_, ?_, ?_, ?_, ?_, ?_, ?_⟩
  · rw [FileInfo.file_size, hd2, hframe8 _ _ (by omega),
      readLE_header_field d _ _ hhdr80 8 8 fs (by omega)
        (fun j hj => encFIH_getD_file_size _ j hj),
      e256, Nat.mod_eq_of_lt hfs]
  · rw [FileInfo.physical_size, hd2, hframe8 _ _ (by omega),
      readLE_header_field d _ _ hhdr80 16 8 ps (by omega)
        (fun j hj => encFIH_getD_physical_size _ j hj),
      e256, Nat.mod_eq_of_lt hps]
  · rw [FileInfo.create_time, Time.mk.injEq, hd2, hframe8 _ _ (by omega)]
    simp only [timeSize]
    rw [readLE_header_field d _ _ hhdr80 24 16 ctv (by omega)
        (fun j hj => encFIH_getD_create_time _ j hj),
      e25616, Nat.mod_eq_of_lt hct]
  · rw [FileInfo.last_access_time, Time.mk.injEq, hd2, hframe8 _ _ (by omega)]
    simp only [timeSize]
    rw [readLE_header_field d _ _ hhdr80 40 16 latv (by omega)
        (fun j hj => encFIH_getD_last_access_time _ j hj),
      e25616, Nat.mod_eq_of_lt hlat]
  · rw [FileInfo.modification_time, Time.mk.injEq, hd2, hframe8 _ _ (by omega)]
    simp only [timeSize]
    rw [readLE_header_field d _ _ hhdr80 56 16 mtv (by omega)
        (fun j hj => encFIH_getD_modification_time _ j hj),
      e25616, Nat.mod_eq_of_lt hmt]
  · rw [FileInfo.attr, hd2, hframe8 _ _ (by omega),
      readLE_header_field d _ _ hhdr80 72 8 attrv (by omega)
        (fun j hj => encFIH_getD_attr _ j hj),
      e256, Nat.mod_eq_of_lt hattr]
  · rw [FileInfo.size_field, hd2, readLE_writeBytes_encLE]
    have e1 : 80 + 2 * (name.length + 1) = 80 + (name.length + 1) * 2 := by
      omega
    rw [e1, e256, Nat.mod_eq_of_lt hbound]
  · rw [FileInfo.file_name, hd2]
    apply readCells_spec
    · intro i hi
      rw [readU16, hframe8 _ _ (by omega)]
      exact hcells80 i hi
    · intro c hc h0
      exact hnonul (h0 ▸ hc)
    · rw [readU16, hframe8 _ _ (by omega)]
      exact hterm80
    · omega

/-- Witness for C3 (amended): a concrete build with name [72] and all
header fields read back unchanged. -/
theorem fileinfo_roundtrip_amended_witness :
    (FileInfo.new ⟨0, 100, fun _ => 0⟩ 3 4 ⟨5⟩ ⟨6⟩ ⟨7⟩ 1 [72]).1 =
      .ok { addr := 8, off := 8, nameLen := 2 } ∧
    FileInfo.file_size (FileInfo.new ⟨0, 100, fun _ => 0⟩ 3 4 ⟨5⟩ ⟨6⟩ ⟨7⟩ 1 [72]).2.data 8 = 3 ∧
    FileInfo.physical_size (FileInfo.new ⟨0, 100, fun _ => 0⟩ 3 4 ⟨5⟩ ⟨6⟩ ⟨7⟩ 1 [72]).2.data 8 = 4 ∧
    FileInfo.create_time (FileInfo.new ⟨0, 100, fun _ => 0⟩ 3 4 ⟨5⟩ ⟨6⟩ ⟨7⟩ 1 [72]).2.data 8 = ⟨5⟩ ∧
    FileInfo.last_access_time (FileInfo.new ⟨0, 100, fun _ => 0⟩ 3 4 ⟨5⟩ ⟨6⟩ ⟨7⟩ 1 [72]).2.data 8 = ⟨6⟩ ∧
    FileInfo.modification_time (FileInfo.new ⟨0, 100, fun _ => 0⟩ 3 4 ⟨5⟩ ⟨6⟩ ⟨7⟩ 1 [72]).2.data 8 = ⟨7⟩ ∧
    FileInfo.attr (FileInfo.new ⟨0, 100, fun _ => 0⟩ 3 4 ⟨5⟩ ⟨6⟩ ⟨7⟩ 1 [72]).2.data 8 = 1 ∧
    FileInfo.size_field (FileInfo.new ⟨0, 100, fun _ => 0⟩ 3 4 ⟨5⟩ ⟨6⟩ ⟨7⟩ 1 [72]).2.data 8
      = 88 ∧
    FileInfo.file_name (FileInfo.new ⟨0, 100, fun _ => 0⟩ 3 4 ⟨5⟩ ⟨6⟩ ⟨7⟩ 1 [72]).2.data 8
      (([72] : List Nat).length + 1) = [72] :=
  fileinfo_roundtrip_amended ⟨0, 100, fun _ => 0⟩ 3 4 ⟨5⟩ ⟨6⟩ ⟨7⟩ 1 [72]
    (fun i => rfl) (by decide) (by decide) (by decide) (by decide) (by decide)
    (by decide) (by decide) (by decide) (by decide) (by decide)

/-- C10: when the realigned buffer is too small and the name also contains
a scalar with no 16-bit representation, the builder reports
`InsufficientStorage`, never `InvalidChar`: the capacity check (which counts
each scalar as one code unit) strictly precedes any character encoding. -/
theorem capacity_check_precedes_encoding {α : Type} (H : HeaderType α)
    (b : Buffer) (hdr : α) (name : List Nat)
    (hbad : ∃ c ∈ name, 65535 < c)
    (hsmall : (realign_storage (infoAlignment H.align) b).len < info_size H name) :
    (new_impl H b hdr name).1 = .error (.InsufficientStorage (info_size H name)) := by
  rw [new_impl, if_pos hsmall]

/-- Witness for C10: a too-small buffer with the unencodable name [70000]
still reports `InsufficientStorage`. -/
theorem capacity_check_precedes_encoding_witness :
    (new_impl fileSystemVolumeLabelHeaderType ⟨0, 1, fun _ => 0⟩ ⟨⟩ [70000]).1 =
      .error (.InsufficientStorage
        (info_size fileSystemVolumeLabelHeaderType [70000])) :=
  capacity_check_precedes_encoding fileSystemVolumeLabelHeaderType
    ⟨0, 1, fun _ => 0⟩ ⟨⟩ [70000] ⟨70000, by decide, by decide⟩ (by decide)

end UefiFileInfo
